import Mathlib

/-!
Shallow embedding of the patrol health-check system: the history store
(`internal/history`: `addItem`, `bgWriter`, `New`, `GetGroupItems`) and the
probe checker (`internal/checker`: `check`, `Check`, `New`) together with the
configuration normalization (`config.go`, `FromConfig`).

Go machine integers (int64 timestamps, durations in nanoseconds) are modelled
as `Int`; Go's truncating integer division is `Int.tdiv`.  Go maps are
modelled as association lists with lookup / first-occurrence update / delete;
heap pointers to `listNode` are modelled as indices into an arena list, so
that the source's pointer mutations become arena updates.  The bounded loops
of the source (linear scan over a possibly corrupt chain, collision loop,
eviction loop) are given explicit fuel that is ample for every terminating
execution of the source.
-/

/-- A float64 value as the program observes it: a finite value (carried as
the exact rational the parser derived — the binary64 rounding of an in-range
value is not modelled, because the program only stores and compares the
value), an infinity, or NaN. -/
inductive FloatVal where
  | finite (q : Rat)
  | inf (neg : Bool)
  | nan
deriving DecidableEq, Repr, Inhabited

deriving instance DecidableEq for Except

/-- One probe observation, translated from `history.Item`.  `Output` is kept
as a string; `Metric` is the float64 metric value. -/
structure Item where
  id : String := ""
  group : String := ""
  name : String := ""
  typ : String := ""
  output : String := ""
  createdAt : Int := 0
  duration : Int := 0
  metric : FloatVal := FloatVal.finite 0
  metricUnit : String := ""
  status : String := ""
  error : String := ""
deriving DecidableEq, Repr, Inhabited

/-- Association-list lookup, modelling Go map read `m[k]`. -/
def alookup {α : Type} (key : String) : List (String × α) → Option α
  | [] => none
  | (k, v) :: rest => if k = key then some v else alookup key rest

/-- Association-list update of an existing key, modelling Go map write `m[k] = v`
for a key already present (keys are unique by construction). -/
def updateAssoc {α : Type} (key : String) (val : α) : List (String × α) → List (String × α)
  | [] => []
  | (k, v) :: rest => if k = key then (k, val) :: rest else (k, v) :: updateAssoc key val rest

/-- Association-list delete, modelling Go `delete(m, k)` (no-op when absent). -/
def eraseKey {α : Type} (key : String) : List (String × α) → List (String × α)
  | [] => []
  | (k, v) :: rest => if k = key then rest else (k, v) :: eraseKey key rest

/-- A node of the doubly linked sequence, translated from `history.listNode`.
Pointers become arena indices (`Option Nat`, `none` = nil). -/
structure listNode where
  value : Item := {}
  next : Option Nat := none
  prev : Option Nat := none
deriving DecidableEq, Repr, Inhabited

/-- Per-group container, translated from `history.dataContainer`. -/
structure dataContainer where
  byID : List (String × Nat) := []
  head : Option Nat := none
  tail : Option Nat := none
deriving DecidableEq, Repr, Inhabited

namespace history

/-- The history store, translated from `history.File`.  `heap` is the arena of
allocated `listNode`s; `log` is the current contents of the on-disk
append-only file (one serialized `Item` per line, with the JSON round-trip
modelled as the identity). -/
structure File where
  data : List (String × dataContainer) := []
  heap : List listNode := []
  log : List Item := []
  maxEntries : Int := 0
deriving DecidableEq, Repr, Inhabited

/-- Dereference an arena index (source code dereferences a live pointer). -/
def nodeAt (heap : List listNode) (i : Nat) : listNode := heap.getD i {}

/-- `int64(24*time.Hour)` in nanoseconds. -/
def nsPerDay : Int := 86400000000000

/-- Identity of a boolean entry:
`fmt.Sprintf("%s|%s|%d|0", Group, Name, CreatedAt.UTC().UnixNano()/int64(24*time.Hour))`. -/
def booleanId (it : Item) : String :=
  it.group ++ "|" ++ it.name ++ "|" ++ toString (it.createdAt.tdiv nsPerDay) ++ "|0"

/-- The collision loop of `addItem` for metric entries: increment the suffix
until the identity is not yet in `byID`.  Fuel `byID.length + 1` is enough for
the loop to find a fresh suffix in every source execution. -/
def metricIdLoop (byID : List (String × Nat)) (pre : String) : Nat → Int → String
  | 0, n => pre ++ toString n
  | fuel+1, n =>
    let id := pre ++ toString n
    if (alookup id byID).isSome then metricIdLoop byID pre fuel (n+1) else id

/-- Identity derivation of `addItem` (lines computing `item.ID`). -/
def computeId (c : dataContainer) (it : Item) : String :=
  if it.typ = "boolean" then booleanId it
  else metricIdLoop c.byID
    (it.group ++ "|" ++ it.name ++ "|" ++ toString it.createdAt ++ "|")
    (c.byID.length + 1) 0

/-- The linear insertion scan of `addItem`:
`for curr := container.head; curr != nil && !inserted; prev, curr = curr, curr.next`.
Returns the updated arena, the updated container, and whether `inserted` was
set.  Note that in the middle-insertion case the source sets `node.prev`,
`node.next` and `prev.next` but never `curr.prev`; the translation mirrors
that exactly. -/
def scanInsert (nid : Nat) : Nat → List listNode → dataContainer → Option Nat → Option Nat →
    List listNode × dataContainer × Bool
  | 0, heap, c, _, _ => (heap, c, false)
  | fuel+1, heap, c, prev, curr =>
    match curr with
    | none => (heap, c, false)
    | some cid =>
      if ¬ ((nodeAt heap nid).value.createdAt < (nodeAt heap cid).value.createdAt) then
        match prev with
        | none =>
          let heap1 := heap.set nid { nodeAt heap nid with next := c.head }
          let heap2 :=
            match c.head with
            | some hid => heap1.set hid { nodeAt heap1 hid with prev := some nid }
            | none => heap1
          (heap2, { c with head := some nid }, true)
        | some pid =>
          let heap1 := heap.set nid
            { nodeAt heap nid with prev := some pid, next := (nodeAt heap pid).next }
          let heap2 := heap1.set pid { nodeAt heap1 pid with next := some nid }
          (heap2, c, true)
      else scanInsert nid fuel heap c (some cid) (nodeAt heap cid).next

/-- The `!inserted` fallthrough of `addItem`: append the node at the tail. -/
def appendTail (nid : Nat) (heap : List listNode) (c : dataContainer) :
    List listNode × dataContainer :=
  match c.tail with
  | some tid =>
    let heap1 := heap.set tid { nodeAt heap tid with next := some nid }
    let heap2 := heap1.set nid { nodeAt heap1 nid with prev := some tid }
    (heap2, { c with tail := some nid })
  | none => (heap, c)

/-- The eviction loop of `addItem`:
`for len(container.byID) > file.maxEntries { drop the tail node }`.
The `tail = none` case is where the source would dereference nil. -/
def evict (maxE : Int) : Nat → List listNode → dataContainer → List listNode × dataContainer
  | 0, heap, c => (heap, c)
  | fuel+1, heap, c =>
    if (c.byID.length : Int) > maxE then
      match c.tail with
      | none => (heap, c)
      | some tid =>
        let dropId := (nodeAt heap tid).value.id
        let (heap1, c1) :=
          match (nodeAt heap tid).prev with
          | none => (heap, { c with tail := none, head := none })
          | some ntid =>
            (heap.set ntid { nodeAt heap ntid with next := none },
             { c with tail := some ntid })
        evict maxE fuel heap1 { c1 with byID := eraseKey dropId c1.byID }
    else (heap, c)

/-- The sequence-insertion block of `(*File).addItem` for a metric or newly
allocated node: first node becomes head and tail; otherwise run the insertion
scan, fall through to a tail append when nothing was inserted, and then run
the eviction loop. -/
def insertNode (maxE : Int) (nid : Nat) (heap : List listNode) (c : dataContainer) :
    List listNode × dataContainer :=
  match c.head with
  | none => (heap, { c with head := some nid, tail := some nid })
  | some _ =>
    let s := scanInsert nid (heap.length + 1) heap c none c.head
    let t := if s.2.2 then (s.1, s.2.1) else appendTail nid s.1 s.2.1
    evict maxE (t.2.byID.length + 1) t.1 t.2

/-- The container-level body of `(*File).addItem`: derive the identity,
allocate or reuse the node, overwrite its value, and for metric or newly
allocated nodes run the insertion scan followed by the eviction loop.
Returns the updated arena, the updated container and the finalized item. -/
def upsertContainer (maxE : Int) (heap0 : List listNode) (c0 : dataContainer) (item0 : Item) :
    List listNode × dataContainer × Item :=
  let item := { item0 with id := computeId c0 item0 }
  let (nid, heap1, c1, found) :=
    match alookup item.id c0.byID with
    | some n => (n, heap0, c0, true)
    | none =>
      (heap0.length, heap0 ++ [({ value := item } : listNode)],
       { c0 with byID := c0.byID ++ [(item.id, heap0.length)] }, false)
  let heap2 := heap1.set nid { nodeAt heap1 nid with value := item }
  let (heap3, c2) :=
    if item.typ = "metric" ∨ found = false then insertNode maxE nid heap2 c1
    else (heap2, c1)
  (heap3, c2, item)

/-- Upsert, translated from `(*File).addItem`: create the group container if
missing, then apply the container-level body and write the container back.
Returns the updated store and the finalized item. -/
def addItem (F : File) (item0 : Item) : File × Item :=
  let data0 :=
    match alookup item0.group F.data with
    | none => F.data ++ [(item0.group, {})]
    | some _ => F.data
  let c0 := (alookup item0.group data0).getD {}
  let r := upsertContainer F.maxEntries F.heap c0 item0
  ({ F with data := updateAssoc item0.group r.2.1 data0, heap := r.1 }, r.2.2)

/-- Walk the sequence from a head pointer following `next`, collecting arena
indices (fuel bounds the walk on corrupt chains). -/
def chainIds (heap : List listNode) : Option Nat → Nat → List Nat
  | _, 0 => []
  | none, _ => []
  | some i, fuel+1 => i :: chainIds heap (nodeAt heap i).next fuel

/-- The items of the sequence in head-to-tail order. -/
def chainItems (heap : List listNode) (h : Option Nat) (fuel : Nat) : List Item :=
  (chainIds heap h fuel).map fun i => (nodeAt heap i).value

/-- Checks that along the `next` chain every link is mirrored by the
successor's `prev` pointer (doubly-linked consistency). -/
def chainConsistent (heap : List listNode) : Option Nat → Nat → Bool
  | _, 0 => true
  | none, _ => true
  | some i, fuel+1 =>
    match (nodeAt heap i).next with
    | none => true
    | some j => ((nodeAt heap j).prev == some i) && chainConsistent heap (some j) fuel

/-- Translated from `(*File).GetGroupItems`.  When the group has no container,
the source dereferences the nil container pointer (`len(container.byID)`) and
panics; the model returns `none` for that fault. -/
def GetGroupItems (F : File) (group : String) : Option (List Item) :=
  match alookup group F.data with
  | none => none
  | some c => some (chainItems F.heap c.head (F.heap.length + 1))

/-- A store with no recorded entries and the given eviction bound. -/
def emptyFile (maxE : Int) : File := { maxEntries := maxE }

/-- Replay: apply each log line through `addItem`, as the recovery loop of
`history.New` does. -/
def replay (lines : List Item) (F : File) : File :=
  lines.foldl (fun acc it => (addItem acc it).1) F

/-- The compaction buffer of `history.New`: for every group container, the
items of its sequence in head-to-tail order. -/
def compactBuffer (F : File) : List Item :=
  (F.data.map fun gc => chainItems F.heap gc.2.head (F.heap.length + 1)).flatten

/-- Translated from `history.New`: replay every line of the existing file,
then (when anything was loaded) truncate and rewrite the file with the
compaction buffer. -/
def New (lines : List Item) (maxE : Int) : File :=
  let F := replay lines (emptyFile maxE)
  if F.data.length > 0 then { F with log := compactBuffer F } else { F with log := lines }

/-- The entries the identity map of a group currently retains. -/
def retainedItems (F : File) (group : String) : List Item :=
  ((alookup group F.data).getD {}).byID.map fun p => (nodeAt F.heap p.2).value

/-- Observable actions of one `bgWriter` wake-up, in program order:
applying an item to the index, the single `io.Copy` of the whole batch
buffer, the delivery of the result to all waiters (`sendError`), and the
`file.fd.Sync()` call. -/
inductive WEvent where
  | applied (it : Item)
  | wrote (buf : List Item)
  | acked (n : Nat) (ok : Bool)
  | synced
deriving DecidableEq, Repr

/-- The batch-collection loop of `bgWriter`:
`for collect && err != nil { select { case r := <-file.writes: ...; default: collect = false } }`.
`err` is the `var err error` of the source (`none` = nil); serialization
(`writeTo`, a JSON marshal that cannot fail for this type) is modelled as
appending the item to the buffer with `err` set to `none`. -/
def drainLoop : Nat → File → List Item → List Item → List Item → List WEvent → Bool →
    Option String → File × List Item × List Item × List Item × List WEvent × Option String
  | 0, F, queue, records, buffer, evs, _, err => (F, queue, records, buffer, evs, err)
  | fuel+1, F, queue, records, buffer, evs, collect, err =>
    if collect ∧ err ≠ none then
      match queue with
      | r :: rest =>
        let a := addItem F r
        drainLoop fuel a.1 rest (records ++ [a.2]) (buffer ++ [a.2])
          (evs ++ [WEvent.applied a.2]) collect none
      | [] => drainLoop fuel F queue records buffer evs false err
    else (F, queue, records, buffer, evs, err)

/-- Result of one wake-up of the write coordinator. -/
structure WakeResult where
  file : File
  queue : List Item
  records : List Item
  buffer : List Item
  events : List WEvent
deriving Repr

/-- One wake-up of `bgWriter` on a pending request `req` while `queue` holds
the requests already waiting in the channel: apply the first request, attempt
the batch-collection loop, then (serialization cannot fail and the physical
write is modelled as succeeding) copy the buffer to the log, deliver the
result to all collected records, and finally fsync. -/
def bgWriterWake (F : File) (req : Item) (queue : List Item) : WakeResult :=
  let a := addItem F req
  let d := drainLoop (queue.length + 1) a.1 queue [a.2] [a.2] [WEvent.applied a.2] true none
  match d.2.2.2.2.2 with
  | some _ =>
    { file := d.1, queue := d.2.1, records := d.2.2.1, buffer := d.2.2.2.1,
      events := d.2.2.2.2.1 ++ [WEvent.acked d.2.2.1.length false, WEvent.synced] }
  | none =>
    { file := { d.1 with log := d.1.log ++ d.2.2.2.1 },
      queue := d.2.1, records := d.2.2.1, buffer := d.2.2.2.1,
      events := d.2.2.2.2.1 ++
        [WEvent.wrote d.2.2.2.1, WEvent.acked d.2.2.1.length true, WEvent.synced] }

/-- True when every `acked` event in the trace is preceded by a `synced`
event (the flag carries whether a sync has been seen so far). -/
def ackedOnlyAfterSync : List WEvent → Bool → Bool
  | [], _ => true
  | WEvent.synced :: r, _ => ackedOnlyAfterSync r true
  | WEvent.acked _ _ :: r, s => s && ackedOnlyAfterSync r s
  | _ :: r, s => ackedOnlyAfterSync r s

end history

namespace checker

/-- Probe definition, translated from `checker.Checker` (the Go field `Type`
is `typ` here; durations are int64 nanoseconds). -/
structure Checker where
  group : String := ""
  name : String := ""
  typ : String := ""
  cmd : String := ""
  metricUnit : String := ""
  interval : Int := 0
  cmdTimeout : Int := 0
  maxRetries : Int := 0
  retryInterval : Int := 0
deriving DecidableEq, Repr, Inhabited

/-- Translated from `checker.New`: default the command timeout to one minute
when `CmdTimeout.Milliseconds()` (truncating division by 10^6) is zero, the
retry count to 1 when zero, and the retry interval to five seconds when
zero. -/
def New (c : Checker) : Checker :=
  let c1 := if c.cmdTimeout.tdiv 1000000 = 0 then { c with cmdTimeout := 60000000000 } else c
  let c2 := if c1.maxRetries = 0 then { c1 with maxRetries := 1 } else c1
  if c2.retryInterval = 0 then { c2 with retryInterval := 5000000000 } else c2

/-- Outcome of `cmd.Run()` as the classification in `check` distinguishes it:
an `*exec.ExitError` with an exit code, any other error, or nil. -/
inductive RunResult where
  | exitError (code : Int)
  | otherError (msg : String)
  | ok
deriving DecidableEq, Repr

/-- `unicode.IsSpace`: the Unicode White_Space property, as Go's
`strings.TrimSpace` uses it (U+0009 to U+000D, space, NEL, NBSP, U+1680,
U+2000 to U+200A, U+2028, U+2029, U+202F, U+205F, U+3000). -/
def goIsSpace (c : Char) : Bool :=
  let n := c.toNat
  (9 ≤ n && n ≤ 13) || n == 32 || n == 0x85 || n == 0xA0 || n == 0x1680 ||
  (0x2000 ≤ n && n ≤ 0x200A) || n == 0x2028 || n == 0x2029 || n == 0x202F ||
  n == 0x205F || n == 0x3000

/-- `strings.TrimSpace`: strip every leading and trailing White_Space rune. -/
def trimSpace (s : String) : String :=
  ⟨(((s.data.dropWhile goIsSpace).reverse).dropWhile goIsSpace).reverse⟩

/-- Go's `lower(c) = c | 0x20` byte trick, on the codepoint. -/
def lowerN (c : Char) : Nat := c.toNat ||| 32

/-- Case-insensitive comparison of a character run, as
`commonPrefixLenIgnoreCase` compares (full-string equality, since `ParseFloat`
rejects trailing input). -/
def eqIgnoreCase (cs : List Char) (w : List Char) : Bool :=
  cs.map lowerN == w.map lowerN

/-- `strconv/atof.go`'s `special`: `[+-]?inf`, `[+-]?infinity` and unsigned
`nan`, case-insensitively (the sign branch falls through to the infinity
check only, so a signed NaN is not special).  The whole string must be
consumed — `ParseFloat` reports a syntax error on trailing input. -/
def special (cs : List Char) : Option FloatVal :=
  match cs with
  | [] => none
  | c :: r =>
    if c = '+' ∨ c = '-' then
      if eqIgnoreCase r "inf".data ∨ eqIgnoreCase r "infinity".data then
        some (FloatVal.inf (c = '-'))
      else none
    else if eqIgnoreCase cs "inf".data ∨ eqIgnoreCase cs "infinity".data then
      some (FloatVal.inf false)
    else if eqIgnoreCase cs "nan".data then some FloatVal.nan
    else none

/-- Digit value of a (possibly hexadecimal) digit character. -/
def digitVal (c : Char) : Nat :=
  if c.isDigit then c.toNat - 48 else lowerN c - 97 + 10

/-- Is `c` a mantissa digit in the given base (10 or 16)? -/
def isBaseDigit (base : Nat) (c : Char) : Bool :=
  c.isDigit || (base == 16 && 97 ≤ lowerN c && lowerN c ≤ 102)

/-- State of `readFloat`'s mantissa scan.  `mant` accumulates every digit
(leading zeros included — with exact values no truncation to 19 digits is
needed, which only ever affects rounding, never the error classification);
`fracDigits` counts digits after the dot. -/
structure ScanState where
  mant : Nat := 0
  fracDigits : Nat := 0
  sawdot : Bool := false
  sawdigits : Bool := false
  underscores : Bool := false
deriving Repr

/-- The mantissa loop of `strconv/atof.go`'s `readFloat`: consume digits,
underscores (validated later by `underscoreOK`) and at most one dot; stop at
the first other character. -/
def scanMantissa (base : Nat) : List Char → ScanState → ScanState × List Char
  | [], st => (st, [])
  | c :: r, st =>
    if c = '_' then scanMantissa base r { st with underscores := true }
    else if c = '.' then
      if st.sawdot then (st, c :: r)
      else scanMantissa base r { st with sawdot := true }
    else if isBaseDigit base c then
      let fd := if st.sawdot then st.fracDigits + 1 else st.fracDigits
      scanMantissa base r
        { st with mant := st.mant * base + digitVal c, sawdigits := true, fracDigits := fd }
    else (st, c :: r)

/-- The exponent-digit loop of `readFloat`: digits and underscores (Go caps
the accumulated value near 10000, which cannot change whether the final value
is in range — every capped exponent already over- or underflows). -/
def scanExpDigits : List Char → Nat → Bool → Nat × Bool × List Char
  | [], e, us => (e, us, [])
  | c :: r, e, us =>
    if c.isDigit then scanExpDigits r (e * 10 + (c.toNat - 48)) us
    else if c = '_' then scanExpDigits r e true
    else (e, us, c :: r)

/-- The exponent part of `readFloat` after the `e`/`p` marker: an optional
sign followed by at least one digit. -/
def readExponent (cs : List Char) : Option (Int × Bool × List Char) :=
  let sg : Int × List Char :=
    match cs with
    | '+' :: r => (1, r)
    | '-' :: r => (-1, r)
    | r => (1, r)
  match sg.2 with
  | c :: _ =>
    if c.isDigit then
      let d := scanExpDigits sg.2 0 false
      some (sg.1 * (d.1 : Int), d.2.1, d.2.2)
    else none
  | [] => none

/-- `strconv`'s `underscoreOK`: underscores are digit separators of the Go
literal syntax — each must follow and precede a digit (a base prefix counts
as a digit).  `saw` tracks the class of the previous character: `^` start,
`0` digit, `_` underscore, `!` other. -/
def underscoreScan (hex : Bool) : List Char → Char → Bool
  | [], saw => saw != '_'
  | c :: r, saw =>
    if c.isDigit || (hex && 97 ≤ lowerN c && lowerN c ≤ 102) then underscoreScan hex r '0'
    else if c = '_' then (saw == '0') && underscoreScan hex r '_'
    else if saw == '_' then false
    else underscoreScan hex r '!'

/-- `strconv`'s `underscoreOK` entry point: skip an optional sign and an
optional `0b`/`0o`/`0x` base prefix, then scan. -/
def underscoreOK (cs0 : List Char) : Bool :=
  let cs1 := match cs0 with
    | '+' :: r => r
    | '-' :: r => r
    | r => r
  match cs1 with
  | '0' :: b :: r =>
    if lowerN b = 'b'.toNat ∨ lowerN b = 'o'.toNat ∨ lowerN b = 'x'.toNat then
      underscoreScan (lowerN b == 'x'.toNat) r '0'
    else underscoreScan false cs1 '^'
  | _ => underscoreScan false cs1 '^'

/-- `readFloat` of `strconv/atof.go`, restricted to a fully consumed input
(`ParseFloat` reports a syntax error whenever trailing input remains):
optional sign, optional `0x` prefix, mantissa with optional dot, mandatory
`p` exponent for hexadecimal and optional `e` exponent for decimal,
underscores validated by `underscoreOK`.  Returns the sign and the exact
magnitude as numerator and denominator (kept unreduced so the range check
stays in integer arithmetic). -/
def readFloat (cs0 : List Char) : Option (Bool × Nat × Nat) :=
  let sg : Bool × List Char :=
    match cs0 with
    | '+' :: r => (false, r)
    | '-' :: r => (true, r)
    | r => (false, r)
  let hx : Bool × List Char :=
    match sg.2 with
    | '0' :: b :: r => if lowerN b = 'x'.toNat then (true, r) else (false, sg.2)
    | _ => (false, sg.2)
  let base : Nat := if hx.1 then 16 else 10
  let sc := scanMantissa base hx.2 {}
  if sc.1.sawdigits = false then none
  else
    let expChar : Nat := if hx.1 then 'p'.toNat else 'e'.toNat
    let cont : Option (Int × Bool) :=
      match sc.2 with
      | [] => if hx.1 then none else some (0, false)
      | c :: r =>
        if lowerN c = expChar then
          match readExponent r with
          | some (e, us, []) => some (e, us)
          | _ => none
        else none
    match cont with
    | none => none
    | some (e, us) =>
      if (sc.1.underscores || us) ∧ underscoreOK cs0 = false then none
      else
        let e2 : Int := if hx.1 then e - 4 * (sc.1.fracDigits : Int)
                        else e - (sc.1.fracDigits : Int)
        let scaleBase : Nat := if hx.1 then 2 else 10
        if 0 ≤ e2 then some (sg.1, sc.1.mant * scaleBase ^ e2.toNat, 1)
        else some (sg.1, sc.1.mant, scaleBase ^ (-e2).toNat)

/-- The smallest magnitude `strconv.ParseFloat` reports as out of range for
64-bit floats: the midpoint above the largest finite float64,
`(2^54 - 1) * 2^970` (the power written as `(2^97)^10` so it evaluates as a
literal) — round-to-nearest-even carries it (and everything above) to
infinity, which Go reports as `ErrRange`; everything below rounds to a
finite value with a nil error (extreme underflow rounds to zero, also with
a nil error). -/
def overflowBound : Nat := (2 ^ 54 - 1) * (2 ^ 97) ^ 10

/-- `strconv.ParseFloat(s, bitSize)` as `check` calls it (the source passes
bitSize 10, which `parseFloatPrefix` treats as 64-bit since only 32 is
special-cased).  `Except.ok` carries the value when the returned error is
nil — an infinity or NaN for the special forms, otherwise the exact rational
value of the literal (the binary64 rounding of an in-range value is not
modelled; the program only stores and compares the value).  `Except.error`
carries the error text for a non-nil error: a syntax error (malformed or
trailing input), or `ErrRange` when the magnitude reaches `overflowBound`
and Go returns infinity with an error.  Error strings use plain quotes where
Go's `%q` would also escape unprintable characters. -/
def ParseFloat (s : String) : Except String FloatVal :=
  match special s.data with
  | some v => Except.ok v
  | none =>
    match readFloat s.data with
    | none =>
      Except.error ("strconv.ParseFloat: parsing \"" ++ s ++ "\": invalid syntax")
    | some (neg, num, den) =>
      if overflowBound * den ≤ num then
        Except.error ("strconv.ParseFloat: parsing \"" ++ s ++ "\": value out of range")
      else
        Except.ok (FloatVal.finite (mkRat (if neg then -(num : Int) else (num : Int)) den))

/-- One probe attempt's classification, translated from `(*Checker).check`
(lines after `cmd.Run()`): build the `history.Item` and classify by the run
outcome; on success with a metric probe, parse the trimmed stdout capture as
a float — parse failure makes the entry unhealthy with a diagnostic. -/
def check (c : Checker) (run : RunResult) (stdout combined : String)
    (createdAt dur : Int) : Item :=
  let item : Item :=
    { group := c.group, name := c.name, typ := c.typ, output := combined,
      createdAt := createdAt, duration := dur, metric := FloatVal.finite 0,
      metricUnit := c.metricUnit, status := "", error := "" }
  match run with
  | RunResult.exitError code =>
    { item with status := "unhealthy", error := "Process exited with status " ++ toString code }
  | RunResult.otherError msg =>
    { item with status := "unhealthy", error := "Failed to run: #" ++ msg }
  | RunResult.ok =>
    let item := { item with status := "healthy" }
    if c.typ = "metric" then
      match ParseFloat (trimSpace stdout) with
      | Except.ok n => { item with metric := n }
      | Except.error e =>
        { item with status := "unhealthy",
                    error := "Failed to parse metric from output: " ++ e }
    else item

/-- Observable steps of `(*Checker).Check`: the interruptible
`time.After(RetryInterval)` wait, and the i-th call of `c.check()`. -/
inductive CheckEvent where
  | wait
  | attempt (i : Nat)
deriving DecidableEq, Repr

/-- The retry loop of `(*Checker).Check`:
`for i := 0; i < c.MaxRetries; i++ { if i > 0 { wait }; item = c.check(); if item.Status != "unhealthy" { return item } }`.
`attempts i` is the item the i-th `c.check()` call produces.  Returns the
event trace, the returned item, and the number of attempts performed. -/
def checkLoop (attempts : Nat → Item) : Nat → Nat → Item → List CheckEvent × Item × Nat
  | 0, i, item => ([], item, i)
  | fuel+1, i, _ =>
    let pre : List CheckEvent := if 0 < i then [CheckEvent.wait] else []
    let it := attempts i
    if it.status ≠ "unhealthy" then (pre ++ [CheckEvent.attempt i], it, i + 1)
    else
      let rest := checkLoop attempts fuel (i + 1) it
      (pre ++ [CheckEvent.attempt i] ++ rest.1, rest.2.1, rest.2.2)

/-- `(*Checker).Check` with no close signal raised: run the retry loop from
`i = 0` starting from the zero-valued `var item history.Item`. -/
def Check (maxRetries : Int) (attempts : Nat → Item) : List CheckEvent × Item × Nat :=
  checkLoop attempts maxRetries.toNat 0 {}

/-- The event trace of `cnt` consecutive attempts starting at index `i`: a
wait precedes every attempt except attempt 0. -/
def retryEvents : Nat → Nat → List CheckEvent
  | _, 0 => []
  | i, cnt+1 => (if 0 < i then [CheckEvent.wait] else []) ++ [CheckEvent.attempt i]
                ++ retryEvents (i + 1) cnt

end checker

namespace patrol

/-- One check stanza of the YAML configuration, translated from the anonymous
`Checks` element struct of `configRaw`.  The `duration` wrapper type is not
under `src/`; Modelled from the spec: a duration field is an int64 nanosecond
count and `isZero` holds exactly for the zero duration, so zero stands for
"unspecified". -/
structure CheckConfig where
  name : String := ""
  interval : Int := 0
  timeout : Int := 0
  cmd : String := ""
  typ : String := ""
  metricUnit : String := ""
deriving DecidableEq, Repr, Inhabited

/-- The per-check normalization and constructor call of `FromConfig`
(config.go): default the type to boolean, reject a missing name, cmd, or
metric unit, default the interval to 60 seconds and the timeout to 3 minutes,
then build the checker through `checker.New`. -/
def buildChecker (group : String) (cc0 : CheckConfig) : Except String checker.Checker :=
  let cc := if cc0.typ = "" then { cc0 with typ := "boolean" } else cc0
  if cc.name = "" then Except.error "check missing name in group"
  else if cc.cmd = "" then Except.error "check missing cmd in group"
  else if cc.typ = "metric" ∧ cc.metricUnit = "" then
    Except.error "check is of type metric but is missing unit"
  else
    let cc1 := if cc.interval = 0 then { cc with interval := 60000000000 } else cc
    let cc2 := if cc1.timeout = 0 then { cc1 with timeout := 180000000000 } else cc1
    Except.ok (checker.New
      { group := group, name := cc2.name, typ := cc2.typ, cmd := cc2.cmd,
        metricUnit := cc2.metricUnit, interval := cc2.interval, cmdTimeout := cc2.timeout })

end patrol

open history

/-- A metric probe observation for group `g`, probe `m`, at the given time. -/
def mItem (t : Int) : Item := { group := "g", name := "m", typ := "metric", createdAt := t }

/-- A boolean probe observation for group `g`, probe `b`, at the given time. -/
def bItem (t : Int) : Item := { group := "g", name := "b", typ := "boolean", createdAt := t }

/-- The batch-collection loop never collects anything: `err` starts out as
nil, so the continuation condition `collect && err != nil` is false at once
and the loop exits with all of its inputs unchanged. -/
theorem drainLoop_no_drain (fuel : Nat) (F : File) (queue records buffer : List Item)
    (evs : List WEvent) (collect : Bool) :
    drainLoop fuel F queue records buffer evs collect none =
      (F, queue, records, buffer, evs, none) := by
  cases fuel with
  | zero => rfl
  | succ n => simp [drainLoop]

/-- C1: the commit protocol does not drain the queue: after applying the first
pending request, every wake-up of the write coordinator commits a batch of
exactly that one record and leaves every request already waiting in the queue
untouched — the drain loop's continuation condition `collect && err != nil`
is never true because `err` starts out nil.  This holds for every store,
request and queue, so in particular batching never triggers. -/
theorem C1_bgwriter_never_drains (F : File) (req : Item) (queue : List Item) :
    (bgWriterWake F req queue).records = [(addItem F req).2] ∧
    (bgWriterWake F req queue).queue = queue ∧
    (bgWriterWake F req queue).buffer = [(addItem F req).2] := by
  simp [bgWriterWake, drainLoop_no_drain]

/-- C2 counterexample: on a concrete wake-up (empty store, one request, empty
queue) the completion result is delivered before the `fsync`: the event trace
contains the acknowledgment strictly before the `synced` event, so the claim
"no waiter is acknowledged before the flush" is false at this input. -/
theorem C2_cex_ack_before_sync :
    ackedOnlyAfterSync (bgWriterWake (emptyFile 10) (mItem 1) []).events false = false ∧
    (bgWriterWake (emptyFile 10) (mItem 1) []).events =
      [WEvent.applied { mItem 1 with id := "g|m|1|0" },
       WEvent.wrote [{ mItem 1 with id := "g|m|1|0" }],
       WEvent.acked 1 true, WEvent.synced] := by decide

/-- C2 (amended): for every wake-up of the write coordinator, the event trace
is exactly: apply the first request, write the entire batch buffer to the
log in one operation, acknowledge all contributing waiters with success, and
only then fsync — so a completion result is delivered only after the whole
buffer is written, but before the flush, whose failure is merely warned
about. -/
theorem C2_ack_after_write_before_fsync (F : File) (req : Item) (queue : List Item) :
    (bgWriterWake F req queue).events =
      [WEvent.applied (addItem F req).2, WEvent.wrote [(addItem F req).2],
       WEvent.acked 1 true, WEvent.synced] := by
  simp [bgWriterWake, drainLoop_no_drain]

/-- C4: eviction fails to keep the most recent entries.  With bound
`maxEntries = 2`, upserting four metric entries with distinct timestamps
3, 1, 2, 4 (in that arrival order) leaves the identity map holding the
entries with timestamps 2 and 4 — not the two most recent ones 3 and 4 —
and leaves the linked sequence holding only the single entry with
timestamp 4: inserting 2 between 3 and 1 never fixed node 1's `prev`
pointer, so the subsequent eviction of node 1 rewired the tail to node 3
and cut node 2 out of the sequence while keeping it in the map. -/
theorem C4_eviction_drops_wrong_entries :
    (retainedItems (replay [mItem 3, mItem 1, mItem 2, mItem 4] (emptyFile 2)) "g").map
        (fun i => i.id) = ["g|m|2|0", "g|m|4|0"] ∧
    "g|m|3|0" ∉
      (retainedItems (replay [mItem 3, mItem 1, mItem 2, mItem 4] (emptyFile 2)) "g").map
        (fun i => i.id) ∧
    GetGroupItems (replay [mItem 3, mItem 1, mItem 2, mItem 4] (emptyFile 2)) "g" =
      some [{ mItem 4 with id := "g|m|4|0" }] := by decide

/-- C5: an upsert does not preserve the doubly-linked invariant.  Upserting
metric entries with timestamps 3, 1, 2 (bound 10, no eviction) makes the
sequence 3 → 2 → 1 via `next`, yet node 1's `prev` still points at node 3
(the middle insertion of 2 sets `node.prev`, `node.next` and `prev.next`
but never the successor's `prev`), so adjacent `prev`/`next` pointers are
not mutually consistent after the third upsert. -/
theorem C5_prev_pointer_inconsistent :
    chainConsistent (replay [mItem 3, mItem 1, mItem 2] (emptyFile 10)).heap
      ((alookup "g" (replay [mItem 3, mItem 1, mItem 2] (emptyFile 10)).data).getD {}).head
      ((replay [mItem 3, mItem 1, mItem 2] (emptyFile 10)).heap.length + 1) = false ∧
    (nodeAt (replay [mItem 3, mItem 1, mItem 2] (emptyFile 10)).heap 2).next = some 1 ∧
    (nodeAt (replay [mItem 3, mItem 1, mItem 2] (emptyFile 10)).heap 1).prev = some 0 := by
  decide

/-- C6: recovery is not idempotent.  From the log 3, 1, 2, 4 (metric, bound
2) the first store retains the entries with timestamps 2 and 4 in its
identity map, but compaction writes out only its (corrupted) sequence [4];
the store rebuilt from the compacted file therefore no longer retains the
entry with timestamp 2. -/
theorem C6_recovery_not_idempotent :
    "g|m|2|0" ∈
      (retainedItems (history.New [mItem 3, mItem 1, mItem 2, mItem 4] 2) "g").map
        (fun i => i.id) ∧
    (history.New [mItem 3, mItem 1, mItem 2, mItem 4] 2).log =
      [{ mItem 4 with id := "g|m|4|0" }] ∧
    "g|m|2|0" ∉
      (retainedItems
          (history.New (history.New [mItem 3, mItem 1, mItem 2, mItem 4] 2).log 2) "g").map
        (fun i => i.id) := by decide

/-- C3 counterexample: two same-day boolean entries need not leave exactly
one retained entry with their shared identity.  In a group already holding
two metric entries (timestamps 200 and 100) under bound `maxEntries = 2`,
upserting boolean entries at times 3 and then 4 (same UTC day, identity
`g|b|0|0`) inserts each at the tail and immediately evicts it, so after the
second upsert no entry with that identity is retained at all. -/
theorem C3_cex_both_evicted :
    booleanId (bItem 3) = "g|b|0|0" ∧ booleanId (bItem 4) = "g|b|0|0" ∧
    alookup "g|b|0|0"
      ((alookup "g" (replay [mItem 200, mItem 100, bItem 3, bItem 4] (emptyFile 2)).data).getD
          {}).byID = none := by decide

/-- C9 counterexample: a probe built from a configuration with no timeout
given does not run with a 1-minute deadline: `FromConfig` defaults the
zero timeout to 3 minutes before calling the constructor, so the
constructor's own 1-minute default never applies. -/
theorem C9_cex_timeout_is_three_minutes :
    (patrol.buildChecker "g" { name := "c", cmd := "x" }).toOption.map
        (fun ck => ck.cmdTimeout) = some 180000000000 ∧
    (180000000000 : Int) ≠ 60000000000 := by decide

/-- C10 counterexample: with eviction bound 0 — the zero value the store
options take when no bound is configured — a group whose container exists
but retains no entry at all still returns normally from `GetGroupItems`
(an empty sequence), so returning normally is not restricted to groups
with at least one retained entry. -/
theorem C10_cex_zero_bound_empty_group :
    GetGroupItems (replay [bItem 1, mItem 2] (emptyFile 0)) "g" = some [] ∧
    ((alookup "g" (replay [bItem 1, mItem 2] (emptyFile 0)).data).getD {}).byID = [] := by
  decide

/-- C7: for a metric probe attempt whose subprocess exits with status zero,
if `strconv.ParseFloat` on the trimmed stdout capture returns a non-nil
error (malformed input, or an out-of-range value) the resulting entry is
unhealthy and its error is the non-empty parse diagnostic; if the parse
returns a nil error the entry is healthy with the metric value set to the
parsed number. -/
theorem C7_metric_parse_classification (c : checker.Checker) (stdout combined : String)
    (createdAt dur : Int) (hm : c.typ = "metric") :
    (∀ e, checker.ParseFloat (checker.trimSpace stdout) = Except.error e →
      (checker.check c checker.RunResult.ok stdout combined createdAt dur).status = "unhealthy" ∧
      (checker.check c checker.RunResult.ok stdout combined createdAt dur).error
        = "Failed to parse metric from output: " ++ e ∧
      (checker.check c checker.RunResult.ok stdout combined createdAt dur).error ≠ "") ∧
    (∀ v, checker.ParseFloat (checker.trimSpace stdout) = Except.ok v →
      (checker.check c checker.RunResult.ok stdout combined createdAt dur).status = "healthy" ∧
      (checker.check c checker.RunResult.ok stdout combined createdAt dur).metric = v) := by
  constructor
  · intro e h
    simp only [checker.check, hm, if_pos rfl, h]
    refine ⟨rfl, rfl, ?_⟩
    intro heq
    simp only [if_pos trivial] at heq
    have hlen := congrArg String.length heq
    simp [String.length_append] at hlen
    exact absurd hlen.1 (by decide)
  · intro v h
    simp only [checker.check, hm, if_pos rfl, h]
    exact ⟨rfl, rfl⟩

/-- C7 witness: the spec's concrete scenarios — `echo not-a-number` yields
an unhealthy entry with a non-empty error despite the zero exit, `echo 42.5`
yields a healthy entry with metric 42.5 — plus the range and special forms:
`1e309` overflows and is unhealthy, while `inf` parses with a nil error and
is healthy. -/
theorem C7_witness :
    (checker.check { typ := "metric" } checker.RunResult.ok "not-a-number\n" "" 0 0).status
        = "unhealthy" ∧
    (checker.check { typ := "metric" } checker.RunResult.ok "not-a-number\n" "" 0 0).error
        ≠ "" ∧
    (checker.check { typ := "metric" } checker.RunResult.ok " 42.5\n" "" 0 0).status
        = "healthy" ∧
    (checker.check { typ := "metric" } checker.RunResult.ok " 42.5\n" "" 0 0).metric
        = FloatVal.finite (mkRat 85 2) ∧
    (checker.check { typ := "metric" } checker.RunResult.ok "1e309" "" 0 0).status
        = "unhealthy" ∧
    (checker.check { typ := "metric" } checker.RunResult.ok "inf" "" 0 0).status
        = "healthy" ∧
    (checker.check { typ := "metric" } checker.RunResult.ok "inf" "" 0 0).metric
        = FloatVal.inf false := by
  refine ⟨?_, ?_, ?_, ?_, ?_, ?_, ?_⟩
  · exact ((C7_metric_parse_classification { typ := "metric" } "not-a-number\n" "" 0 0 rfl).1
      "strconv.ParseFloat: parsing \"not-a-number\": invalid syntax" (by decide)).1
  · exact ((C7_metric_parse_classification { typ := "metric" } "not-a-number\n" "" 0 0 rfl).1
      "strconv.ParseFloat: parsing \"not-a-number\": invalid syntax" (by decide)).2.2
  · exact ((C7_metric_parse_classification { typ := "metric" } " 42.5\n" "" 0 0 rfl).2
      (FloatVal.finite (mkRat 85 2)) (by decide)).1
  · exact ((C7_metric_parse_classification { typ := "metric" } " 42.5\n" "" 0 0 rfl).2
      (FloatVal.finite (mkRat 85 2)) (by decide)).2
  · exact ((C7_metric_parse_classification { typ := "metric" } "1e309" "" 0 0 rfl).1
      "strconv.ParseFloat: parsing \"1e309\": value out of range" (by decide)).1
  · exact ((C7_metric_parse_classification { typ := "metric" } "inf" "" 0 0 rfl).2
      (FloatVal.inf false) (by decide)).1
  · exact ((C7_metric_parse_classification { typ := "metric" } "inf" "" 0 0 rfl).2
      (FloatVal.inf false) (by decide)).2

/-- `checker.New` on the probe kind field. -/
theorem New_typ (c : checker.Checker) : (checker.New c).typ = c.typ := by
  simp only [checker.New]
  split_ifs <;> rfl

/-- `checker.New` on the command timeout field. -/
theorem New_cmdTimeout (c : checker.Checker) :
    (checker.New c).cmdTimeout =
      if c.cmdTimeout.tdiv 1000000 = 0 then 60000000000 else c.cmdTimeout := by
  simp only [checker.New]
  split_ifs <;> rfl

/-- `checker.New` on the retry count field. -/
theorem New_maxRetries (c : checker.Checker) :
    (checker.New c).maxRetries = if c.maxRetries = 0 then 1 else c.maxRetries := by
  simp only [checker.New]
  split_ifs <;> rfl

/-- `checker.New` on the retry interval field. -/
theorem New_retryInterval (c : checker.Checker) :
    (checker.New c).retryInterval =
      if c.retryInterval = 0 then 5000000000 else c.retryInterval := by
  simp only [checker.New]
  split_ifs <;> rfl

/-- C9 (amended): the constructor defaults are a 1-minute command timeout
(when the configured timeout has zero milliseconds), 1 retry and a 5-second
retry interval, and the configuration layer defaults the kind to boolean —
but a probe built from a configuration with no timeout given runs with a
3-minute command deadline, because `FromConfig` defaults a zero timeout to
3 minutes before the constructor ever sees it. -/
theorem C9_defaults :
    (∀ c : checker.Checker, c.cmdTimeout = 0 → (checker.New c).cmdTimeout = 60000000000) ∧
    (∀ c : checker.Checker, c.maxRetries = 0 → (checker.New c).maxRetries = 1) ∧
    (∀ c : checker.Checker, c.retryInterval = 0 → (checker.New c).retryInterval = 5000000000) ∧
    (∀ (grp : String) (cc : patrol.CheckConfig), cc.typ = "" → cc.name ≠ "" → cc.cmd ≠ "" →
      cc.timeout = 0 →
      (patrol.buildChecker grp cc).toOption.map
          (fun ck => (ck.typ, ck.cmdTimeout, ck.maxRetries, ck.retryInterval)) =
        some ("boolean", 180000000000, 1, 5000000000)) := by
  refine ⟨?_, ?_, ?_, ?_⟩
  · intro c hc
    rw [New_cmdTimeout, hc]
    decide
  · intro c hc
    rw [New_maxRetries, hc]
    decide
  · intro c hc
    rw [New_retryInterval, hc]
    decide
  · intro grp cc ht hn hc h0
    have hcc : (if cc.typ = "" then { cc with typ := "boolean" } else cc)
        = { cc with typ := "boolean" } := if_pos ht
    simp only [patrol.buildChecker, hcc]
    rw [if_neg (by simpa using hn), if_neg (by simpa using hc), if_neg (by simp)]
    split_ifs <;>
      simp [Except.toOption, New_typ, New_cmdTimeout, New_maxRetries, New_retryInterval] <;>
      decide

/-- C9 witness: concrete instances of the amended defaults — a zero-valued
timeout, retry count and retry interval get the constructor defaults, and a
configuration with no timeout (and no type) yields a boolean probe with a
3-minute command deadline, 1 retry and a 5-second retry interval. -/
theorem C9_witness :
    (checker.New { cmdTimeout := 0 }).cmdTimeout = 60000000000 ∧
    (checker.New { maxRetries := 0 }).maxRetries = 1 ∧
    (checker.New { retryInterval := 0 }).retryInterval = 5000000000 ∧
    (patrol.buildChecker "g" { name := "c", cmd := "x" }).toOption.map
        (fun ck => (ck.typ, ck.cmdTimeout, ck.maxRetries, ck.retryInterval)) =
      some ("boolean", 180000000000, 1, 5000000000) :=
  ⟨C9_defaults.1 { cmdTimeout := 0 } rfl,
   C9_defaults.2.1 { maxRetries := 0 } rfl,
   C9_defaults.2.2.1 { retryInterval := 0 } rfl,
   C9_defaults.2.2.2 "g" { name := "c", cmd := "x" } rfl (by decide) (by decide) rfl⟩

/-- The retry loop of `Check`, specified for an arbitrary start index `i` and
positive remaining fuel: at least one and at most `fuel` further attempts run,
the returned item is the last attempt's, every attempt before the last was
unhealthy, stopping before the fuel ran out means the last attempt was not
unhealthy, and the event trace interleaves a wait before every attempt except
attempt 0. -/
theorem checkLoop_spec (attempts : Nat → Item) :
    ∀ (fuel i : Nat) (it0 : Item), 1 ≤ fuel →
      i + 1 ≤ (checker.checkLoop attempts fuel i it0).2.2 ∧
      (checker.checkLoop attempts fuel i it0).2.2 ≤ i + fuel ∧
      (checker.checkLoop attempts fuel i it0).2.1
        = attempts ((checker.checkLoop attempts fuel i it0).2.2 - 1) ∧
      (∀ j, i ≤ j → j + 1 < (checker.checkLoop attempts fuel i it0).2.2 →
        (attempts j).status = "unhealthy") ∧
      ((checker.checkLoop attempts fuel i it0).2.2 < i + fuel →
        (attempts ((checker.checkLoop attempts fuel i it0).2.2 - 1)).status ≠ "unhealthy") ∧
      (checker.checkLoop attempts fuel i it0).1
        = checker.retryEvents i ((checker.checkLoop attempts fuel i it0).2.2 - i) := by
  intro fuel
  induction fuel with
  | zero => intro i it0 h; omega
  | succ f ih =>
    intro i it0 _
    by_cases hs : (attempts i).status = "unhealthy"
    · rcases Nat.eq_zero_or_pos f with hf | hf
      · subst hf
        simp only [checker.checkLoop, hs, ne_eq, not_true_eq_false, if_false, ite_false]
        refine ⟨by omega, by omega, rfl, ?_, by omega, ?_⟩
        · intro j hj hlt; omega
        · simp [checker.retryEvents]
      · have IH := ih (i + 1) (attempts i) hf
        simp only [checker.checkLoop, hs, ne_eq, not_true_eq_false, if_false, ite_false]
        obtain ⟨h1, h2, h3, h4, h5, h6⟩ := IH
        refine ⟨by omega, by omega, h3, ?_, ?_, ?_⟩
        · intro j hj hlt
          rcases Nat.eq_or_lt_of_le hj with rfl | hj'
          · exact hs
          · exact h4 j hj' hlt
        · intro hlt
          exact h5 (by omega)
        · rw [h6]
          have hni : (checker.checkLoop attempts f (i + 1) (attempts i)).2.2 - i
              = ((checker.checkLoop attempts f (i + 1) (attempts i)).2.2 - (i + 1)) + 1 := by
            omega
          rw [hni, checker.retryEvents]
    · simp only [checker.checkLoop, ne_eq, if_pos hs]
      refine ⟨by omega, by omega, by simp, ?_, ?_, ?_⟩
      · intro j hj hlt; omega
      · intro _
        simpa using hs
      · simp [checker.retryEvents]

/-- C8: for a probe definition with a non-negative configured retry count,
the constructed checker's retry count is at least 1, and `Check` performs
between 1 and `maxRetries` attempts, waits only between attempts (never
before the first — the event trace is attempt 0, then wait/attempt pairs),
stops retrying as soon as an attempt is not unhealthy (every attempt before
the last is unhealthy, and stopping early means the last was not unhealthy),
and returns the last entry produced. -/
theorem C8_retry_policy (c : checker.Checker) (attempts : Nat → Item)
    (evs : List checker.CheckEvent) (last : Item) (n : Nat)
    (h0 : 0 ≤ c.maxRetries)
    (hrun : checker.Check (checker.New c).maxRetries attempts = (evs, last, n)) :
    1 ≤ (checker.New c).maxRetries ∧
    1 ≤ n ∧ (n : Int) ≤ (checker.New c).maxRetries ∧
    last = attempts (n - 1) ∧
    (∀ j, j + 1 < n → (attempts j).status = "unhealthy") ∧
    ((n : Int) < (checker.New c).maxRetries → (attempts (n - 1)).status ≠ "unhealthy") ∧
    evs = checker.retryEvents 0 n := by
  have hm : 1 ≤ (checker.New c).maxRetries := by
    rw [New_maxRetries]
    split_ifs <;> omega
  have hfuel : 1 ≤ ((checker.New c).maxRetries).toNat := by omega
  have hs := checkLoop_spec attempts ((checker.New c).maxRetries).toNat 0 {} hfuel
  rw [show checker.checkLoop attempts ((checker.New c).maxRetries).toNat 0 {}
      = (evs, last, n) from hrun] at hs
  obtain ⟨h1, h2, h3, h4, h5, h6⟩ := hs
  simp only at h1 h2 h3 h4 h5 h6
  refine ⟨hm, by omega, by omega, h3, ?_, ?_, by simpa using h6⟩
  · intro j hj
    exact h4 j (Nat.zero_le j) hj
  · intro hlt
    exact h5 (by omega)

/-- C8 witness: a checker configured with `maxRetries = 3` and a command
that always fails performs exactly 3 attempts and returns an unhealthy
entry. -/
theorem C8_witness :
    (checker.Check (checker.New { maxRetries := 3 }).maxRetries
        (fun _ => ({ status := "unhealthy" } : Item))).2.2 = 3 ∧
    (checker.Check (checker.New { maxRetries := 3 }).maxRetries
        (fun _ => ({ status := "unhealthy" } : Item))).2.1.status = "unhealthy" := by
  have h := C8_retry_policy { maxRetries := 3 } (fun _ => ({ status := "unhealthy" } : Item))
      (checker.Check (checker.New { maxRetries := 3 }).maxRetries
        (fun _ => ({ status := "unhealthy" } : Item))).1
      (checker.Check (checker.New { maxRetries := 3 }).maxRetries
        (fun _ => ({ status := "unhealthy" } : Item))).2.1
      (checker.Check (checker.New { maxRetries := 3 }).maxRetries
        (fun _ => ({ status := "unhealthy" } : Item))).2.2
      (by decide) rfl
  obtain ⟨hm, hn1, hn2, hlast, hall, hstop, hevs⟩ := h
  set n := (checker.Check (checker.New { maxRetries := 3 }).maxRetries
      (fun _ => ({ status := "unhealthy" } : Item))).2.2 with hndef
  have hmr : (checker.New ({ maxRetries := 3 } : checker.Checker)).maxRetries = 3 := by decide
  rw [hmr] at hn2 hstop
  have hn3 : n = 3 := by
    by_contra hne
    exact hstop (by omega) rfl
  exact ⟨hn3, by rw [hlast, hn3]⟩

/-- Writing a key's current value back into an association list leaves the
list unchanged. -/
theorem updateAssoc_self {α : Type} (key : String) (v : α) :
    ∀ l : List (String × α), alookup key l = some v → updateAssoc key v l = l := by
  intro l
  induction l with
  | nil => intro h; simp [alookup] at h
  | cons p rest ih =>
    intro h
    obtain ⟨k, w⟩ := p
    by_cases hk : k = key
    · simp only [alookup, if_pos hk] at h
      obtain rfl : w = v := by injection h
      simp [updateAssoc, hk]
    · simp only [alookup, if_neg hk] at h
      simp [updateAssoc, hk, ih h]

/-- Reading the arena after a single-slot update. -/
theorem nodeAt_set (heap : List listNode) :
    ∀ (n : Nat) (a : listNode) (i : Nat),
      nodeAt (heap.set n a) i = if n = i ∧ n < heap.length then a else nodeAt heap i := by
  induction heap with
  | nil => intro n a i; simp [nodeAt]
  | cons hd tl ih =>
    intro n a i
    cases n with
    | zero =>
      cases i with
      | zero => simp [nodeAt, List.set]
      | succ j => simp [nodeAt, List.set, List.getD]
    | succ m =>
      cases i with
      | zero => simp [nodeAt, List.set, List.getD]
      | succ j =>
        simp only [List.set, nodeAt, List.getD_cons_succ, List.length_cons]
        have h := ih m a j
        simp only [nodeAt] at h
        rw [h]
        congr 1
        simp [Nat.succ_lt_succ_iff]

/-- A walk of the sequence depends only on the `next` pointers: two arenas
with identical `next` fields yield the same chain of indices. -/
theorem chainIds_congr (heap' heap : List listNode)
    (hnext : ∀ i, (nodeAt heap' i).next = (nodeAt heap i).next) :
    ∀ (fuel : Nat) (h : Option Nat), chainIds heap' h fuel = chainIds heap h fuel := by
  intro fuel
  induction fuel with
  | zero => intro h; cases h <;> rfl
  | succ f ih =>
    intro h
    cases h with
    | none => rfl
    | some i => simp [chainIds, hnext i, ih]

/-- The effect of a pure in-place replacement: only one node's value changes. -/
def replaceValue (F : File) (nid : Nat) (v : Item) : File :=
  { F with heap := F.heap.set nid { nodeAt F.heap nid with value := v } }

/-- C3 (amended): two boolean entries for the same group and probe name whose
timestamps fall in the same UTC day derive the same identity; and whenever
the node carrying that identity is still retained, upserting the second entry
replaces the node's value in place: the store's group map (hence the node
count) is unchanged, the node now carries the later entry, and the
sequence of nodes from any head is unchanged — the whole upsert is exactly a
one-slot value overwrite. -/
theorem C3_same_day_replace (it1 it2 : Item) (F : File) (c : dataContainer) (nid : Nat)
    (hb1 : it1.typ = "boolean") (hb2 : it2.typ = "boolean")
    (hg : it2.group = it1.group) (hn : it2.name = it1.name)
    (hday : it2.createdAt.tdiv nsPerDay = it1.createdAt.tdiv nsPerDay)
    (hc : alookup it2.group F.data = some c)
    (hnid : alookup (booleanId it1) c.byID = some nid)
    (hlt : nid < F.heap.length) :
    booleanId it2 = booleanId it1 ∧
    addItem F it2 =
      (replaceValue F nid { it2 with id := booleanId it1 }, { it2 with id := booleanId it1 }) ∧
    (addItem F it2).1.data = F.data ∧
    (nodeAt (addItem F it2).1.heap nid).value = { it2 with id := booleanId it1 } ∧
    (∀ fuel, chainIds (addItem F it2).1.heap c.head fuel = chainIds F.heap c.head fuel) := by
  have hid : booleanId it2 = booleanId it1 := by
    simp [booleanId, hg, hn, hday]
  have hcid : computeId c it2 = booleanId it1 := by
    rw [computeId, if_pos hb2, hid]
  have hstep : addItem F it2 =
      (replaceValue F nid { it2 with id := booleanId it1 }, { it2 with id := booleanId it1 }) := by
    simp only [addItem, upsertContainer, insertNode, hc, Option.getD_some, hcid, hnid, hb2, replaceValue]
    simp [updateAssoc_self it2.group c F.data hc]
  refine ⟨hid, hstep, by rw [hstep]; simp [replaceValue], ?_, ?_⟩
  · rw [hstep]
    simp [replaceValue, nodeAt_set, hlt]
  · intro fuel
    rw [hstep]
    refine chainIds_congr _ _ (fun i => ?_) fuel c.head
    simp only [replaceValue]
    rw [nodeAt_set]
    by_cases hni : nid = i ∧ nid < F.heap.length
    · rw [if_pos hni]
      obtain ⟨rfl, _⟩ := hni
      rfl
    · rw [if_neg hni]

/-- C3 witness: after recording a boolean entry at time 3, upserting a
same-day boolean entry at time 4 leaves the group map unchanged, overwrites
the sole node with the later entry, and leaves the sequence unchanged. -/
theorem C3_witness :
    booleanId (bItem 4) = booleanId (bItem 3) ∧
    (addItem (replay [bItem 3] (emptyFile 10)) (bItem 4)).1.data
      = (replay [bItem 3] (emptyFile 10)).data ∧
    (nodeAt (addItem (replay [bItem 3] (emptyFile 10)) (bItem 4)).1.heap 0).value
      = { bItem 4 with id := booleanId (bItem 3) } ∧
    chainIds (addItem (replay [bItem 3] (emptyFile 10)) (bItem 4)).1.heap (some 0) 2
      = chainIds (replay [bItem 3] (emptyFile 10)).heap (some 0) 2 := by
  have h := C3_same_day_replace (bItem 3) (bItem 4) (replay [bItem 3] (emptyFile 10))
      { byID := [("g|b|0|0", 0)], head := some 0, tail := some 0 } 0
      rfl rfl rfl rfl (by decide) (by decide) (by decide) (by decide)
  exact ⟨h.1, h.2.2.1, h.2.2.2.1, h.2.2.2.2 2⟩

/-- A successful lookup implies the list is non-empty. -/
theorem alookup_some_ne_nil {α : Type} (k : String) (v : α) (l : List (String × α))
    (h : alookup k l = some v) : l ≠ [] := by
  cases l with
  | nil => simp [alookup] at h
  | cons p rest => simp

/-- Updating one key leaves lookups of other keys unchanged. -/
theorem alookup_updateAssoc_ne {α : Type} (g key : String) (v : α) (hne : g ≠ key) :
    ∀ l : List (String × α), alookup g (updateAssoc key v l) = alookup g l := by
  intro l
  induction l with
  | nil => rfl
  | cons p rest ih =>
    obtain ⟨k, w⟩ := p
    by_cases hk : k = key
    · subst hk
      simp only [updateAssoc, if_pos rfl, alookup]
      rw [if_neg (fun hkg => hne hkg.symm), if_neg (fun hkg => hne hkg.symm)]
    · simp only [updateAssoc, if_neg hk, alookup]
      by_cases hkg : k = g
      · rw [if_pos hkg, if_pos hkg]
      · rw [if_neg hkg, if_neg hkg, ih]

/-- Updating a present key makes its lookup return the new value. -/
theorem alookup_updateAssoc_present {α : Type} (key : String) (v w : α) :
    ∀ l : List (String × α), alookup key l = some w →
      alookup key (updateAssoc key v l) = some v := by
  intro l
  induction l with
  | nil => intro h; simp [alookup] at h
  | cons p rest ih =>
    intro h
    obtain ⟨k, u⟩ := p
    by_cases hk : k = key
    · subst hk
      simp [updateAssoc, alookup]
    · simp only [alookup, if_neg hk] at h
      simp only [updateAssoc, if_neg hk, alookup, if_neg hk]
      exact ih h

/-- Appending a binding for another key leaves a lookup unchanged. -/
theorem alookup_append_one_ne {α : Type} (g k : String) (v : α) (hne : g ≠ k) :
    ∀ l : List (String × α), alookup g (l ++ [(k, v)]) = alookup g l := by
  intro l
  induction l with
  | nil =>
    simp only [List.nil_append, alookup]
    rw [if_neg (fun h => hne h.symm)]
  | cons p rest ih =>
    obtain ⟨k2, w⟩ := p
    simp only [List.cons_append, alookup]
    by_cases hk2 : k2 = g
    · rw [if_pos hk2, if_pos hk2]
    · rw [if_neg hk2, if_neg hk2]
      exact ih

/-- Appending a binding for an absent key makes its lookup succeed. -/
theorem alookup_append_one_self {α : Type} (k : String) (v : α) :
    ∀ l : List (String × α), alookup k l = none → alookup k (l ++ [(k, v)]) = some v := by
  intro l
  induction l with
  | nil => intro _; simp [alookup]
  | cons p rest ih =>
    intro h
    obtain ⟨k2, w⟩ := p
    simp only [alookup] at h
    by_cases hk2 : k2 = k
    · rw [if_pos hk2] at h
      exact absurd h (by simp)
    · rw [if_neg hk2] at h
      simp only [List.cons_append, alookup, if_neg hk2]
      exact ih h

/-- Deleting a key removes at most one binding. -/
theorem eraseKey_length_ge {α : Type} (k : String) :
    ∀ l : List (String × α), l.length ≤ (eraseKey k l).length + 1 := by
  intro l
  induction l with
  | nil => simp [eraseKey]
  | cons p rest ih =>
    obtain ⟨k2, w⟩ := p
    by_cases hk : k2 = k
    · simp only [eraseKey, if_pos hk, List.length_cons]
      omega
    · simp only [eraseKey, if_neg hk, List.length_cons]
      omega

/-- The insertion scan never touches the identity map. -/
theorem scanInsert_byID (nid : Nat) :
    ∀ (fuel : Nat) (heap : List listNode) (c : dataContainer) (prev curr : Option Nat),
      ((scanInsert nid fuel heap c prev curr).2.1).byID = c.byID := by
  intro fuel
  induction fuel with
  | zero => intro heap c prev curr; rfl
  | succ f ih =>
    intro heap c prev curr
    cases curr with
    | none => rfl
    | some cid =>
      simp only [scanInsert]
      split_ifs with hcond
      · exact ih _ _ _ _
      · cases prev with
        | none => rfl
        | some pid => rfl

/-- The tail append never touches the identity map. -/
theorem appendTail_byID (nid : Nat) (heap : List listNode) (c : dataContainer) :
    ((appendTail nid heap c).2).byID = c.byID := by
  cases htail : c.tail with
  | none => simp [appendTail, htail]
  | some tid => simp [appendTail, htail]

/-- With an eviction bound of at least 1, the eviction loop never empties
the identity map: it only runs while the map holds at least two bindings
and removes at most one per iteration. -/
theorem evict_byID_ne_nil (maxE : Int) (hk : 1 ≤ maxE) :
    ∀ (fuel : Nat) (heap : List listNode) (c : dataContainer), c.byID ≠ [] →
      ((evict maxE fuel heap c).2).byID ≠ [] := by
  intro fuel
  induction fuel with
  | zero => intro heap c h; exact h
  | succ f ih =>
    intro heap c h
    simp only [evict]
    split_ifs with hgt
    · cases htail : c.tail with
      | none => exact h
      | some tid =>
        apply ih
        have h2 : 2 ≤ c.byID.length := by omega
        have h3 := eraseKey_length_ge (nodeAt heap tid).value.id c.byID
        cases hprev : (nodeAt heap tid).prev with
        | none =>
          simp only [hprev]
          intro hnil
          rw [hnil] at h3
          simp at h3
          omega
        | some ntid =>
          simp only [hprev]
          intro hnil
          rw [hnil] at h3
          simp at h3
          omega
    · exact h

/-- The insertion block keeps the identity map non-empty when the bound is
at least 1. -/
theorem insertNode_byID_ne_nil (maxE : Int) (hk : 1 ≤ maxE) (nid : Nat)
    (heap : List listNode) (c : dataContainer) (h : c.byID ≠ []) :
    ((insertNode maxE nid heap c).2).byID ≠ [] := by
  simp only [insertNode]
  cases hhead : c.head with
  | none => exact h
  | some hid =>
    apply evict_byID_ne_nil maxE hk
    by_cases hs : (scanInsert nid (heap.length + 1) heap c none (some hid)).2.2 = true
    · rw [if_pos hs, scanInsert_byID]
      exact h
    · rw [if_neg hs, appendTail_byID, scanInsert_byID]
      exact h

/-- After any upsert with an eviction bound of at least 1, the group's
identity map is non-empty. -/
theorem upsertContainer_byID_ne_nil (maxE : Int) (hk : 1 ≤ maxE)
    (heap0 : List listNode) (c0 : dataContainer) (item0 : Item) :
    ((upsertContainer maxE heap0 c0 item0).2.1).byID ≠ [] := by
  simp only [upsertContainer]
  cases hfind : alookup (computeId c0 item0) c0.byID with
  | some n =>
    simp only [hfind]
    by_cases hm : item0.typ = "metric"
    · simp only [if_pos (Or.inl hm)]
      exact insertNode_byID_ne_nil maxE hk _ _ _ (alookup_some_ne_nil _ _ _ hfind)
    · have hnc : ¬(item0.typ = "metric" ∨ (true : Bool) = false) := by simp [hm]
      simp only [if_neg hnc]
      exact alookup_some_ne_nil _ _ _ hfind
  | none =>
    simp only [hfind]
    simp only [or_true, if_true]
    refine insertNode_byID_ne_nil maxE hk _ _ _ ?_
    intro hnil
    simpa using congrArg List.length hnil

/-- `addItem` preserves the invariant that every existing group container
retains at least one entry (bound at least 1). -/
theorem addItem_inv (F : File) (it0 : Item) (hk : 1 ≤ F.maxEntries)
    (hinv : ∀ g c, alookup g F.data = some c → c.byID ≠ []) :
    ∀ g c, alookup g (addItem F it0).1.data = some c → c.byID ≠ [] := by
  intro g c h
  simp only [addItem] at h
  cases halo : alookup it0.group F.data with
  | none =>
    simp only [halo] at h
    rw [alookup_append_one_self it0.group {} F.data halo] at h
    simp only [Option.getD_some] at h
    by_cases hg : g = it0.group
    · subst hg
      rw [alookup_updateAssoc_present it0.group _ ({} : dataContainer) _
        (alookup_append_one_self it0.group {} F.data halo)] at h
      obtain rfl : _ = c := by injection h
      exact upsertContainer_byID_ne_nil F.maxEntries hk _ _ _
    · rw [alookup_updateAssoc_ne g it0.group _ hg _,
        alookup_append_one_ne g it0.group _ hg _] at h
      exact hinv g c h
  | some c0 =>
    simp only [halo, Option.getD_some] at h
    by_cases hg : g = it0.group
    · subst hg
      rw [alookup_updateAssoc_present it0.group _ c0 _ halo] at h
      obtain rfl : _ = c := by injection h
      exact upsertContainer_byID_ne_nil F.maxEntries hk _ _ _
    · rw [alookup_updateAssoc_ne g it0.group _ hg _] at h
      exact hinv g c h

/-- Replaying any list of entries preserves the non-empty-container
invariant. -/
theorem replay_inv (items : List Item) :
    ∀ F : File, 1 ≤ F.maxEntries →
      (∀ g c, alookup g F.data = some c → c.byID ≠ []) →
      (∀ g c, alookup g (replay items F).data = some c → c.byID ≠ []) := by
  induction items with
  | nil => intro F _ hinv; exact hinv
  | cons it rest ih =>
    intro F hk hinv
    simp only [replay, List.foldl_cons]
    exact ih (addItem F it).1 hk (addItem_inv F it hk hinv)

/-- C10 (amended): in a store built by upserting any entries with an
eviction bound of at least 1, `GetGroupItems` faults (nil-container
dereference, modelled as `none`) exactly for groups that have never recorded
an entry; for every group with a container the call returns normally, the
group retains at least one entry, and the returned list is the sequence in
head-to-tail order. -/
theorem C10_get_group_items (items : List Item) (k : Int) (g : String) (hk : 1 ≤ k) :
    (alookup g (replay items (emptyFile k)).data = none →
      GetGroupItems (replay items (emptyFile k)) g = none) ∧
    (∀ c, alookup g (replay items (emptyFile k)).data = some c →
      c.byID ≠ [] ∧
      GetGroupItems (replay items (emptyFile k)) g =
        some (chainItems (replay items (emptyFile k)).heap c.head
          ((replay items (emptyFile k)).heap.length + 1))) := by
  constructor
  · intro h
    simp [GetGroupItems, h]
  · intro c h
    refine ⟨?_, ?_⟩
    · exact replay_inv items (emptyFile k) (by simpa [emptyFile] using hk)
        (fun g2 c2 h2 => by simp [emptyFile, alookup] at h2) g c h
    · simp [GetGroupItems, h]

/-- C10 witness: a store holding one entry for group `g` faults on the
unknown group `nope`, while `g` retains an entry and returns its sequence. -/
theorem C10_witness :
    GetGroupItems (replay [bItem 1] (emptyFile 1)) "nope" = none ∧
    ((alookup "g" (replay [bItem 1] (emptyFile 1)).data).getD {}).byID ≠ [] ∧
    GetGroupItems (replay [bItem 1] (emptyFile 1)) "g"
      = some [{ bItem 1 with id := "g|b|0|0" }] := by
  have h := C10_get_group_items [bItem 1] 1 "nope" (by decide)
  have h2 := C10_get_group_items [bItem 1] 1 "g" (by decide)
  have h3 := (h2.2 { byID := [("g|b|0|0", 0)], head := some 0, tail := some 0 } (by decide)).1
  exact ⟨h.1 (by decide), by decide, by decide⟩
